import Mathlib

/-!
Verification of the WeChatEmoCreator editing/versioning/export core.

Shallow embedding of:
- the undo/redo history manager of `src/composables/useCanvas.ts`
  (`_saveHistory`, `undo`, `redo`, `canUndo`, `canRedo`, `setCanvas`,
  and the `object:added/modified/removed` mutation hook);
- the shape-drawing tool state machine of the same file
  (`setTool`, `_applyTool`, and the `rect`/`circle` mouse handlers);
- the frame timeline of `src/composables/useFrames.ts`
  (`addFrame`, `deleteFrame`, `duplicateFrame`, `reorderFrames`,
  `updateDelay`) and the `captureFrame` wrapper of the app component;
- the compliance checker (`checkCompliance`) and the `exportEmoji`
  driver of the app component.

JavaScript arrays are modelled as Lean lists, JS numbers used as array
indices as `Int` (the code stores `-1` in `_historyIndex`), and the
mutable composable state as explicit state-passing records.  Asynchrony
(`loadFromJSON` callbacks, GIF worker rendering) is collapsed to
synchronous completion; DOM interaction (downloads) is out of scope.
-/

namespace WeChatEmo

/-! ## JavaScript array-primitive semantics used by the source -/

/-- Resolution of one `Array.prototype.slice` bound: a negative index
counts from the end of the array (clamped at 0), a nonnegative index is
clamped at the length. -/
def jsSliceIndex (len : Nat) (i : Int) : Nat :=
  if i < 0 then ((len : Int) + i).toNat else min i.toNat len

/-- Semantics of `arr.slice(start, stop)` on a JS array. -/
def jsSlice (l : List α) (start stop : Int) : List α :=
  (l.take (jsSliceIndex l.length stop)).drop (jsSliceIndex l.length start)

/-- Semantics of `arr[i]` on a JS array: `undefined` (here `none`) for a
negative or out-of-bounds index. -/
def jsGetElem (l : List α) (i : Int) : Option α :=
  if i < 0 then none else l.get? i.toNat

/-! ## History manager (`src/composables/useCanvas.ts`)

The composable closes over the mutable variables `canvas`, `_history`,
`_historyIndex` and `_isRestoringHistory`; we collect them in a record.
The canvas itself only matters through its serialized form
(`JSON.stringify(canvas.toJSON())`), so the canvas content is an
abstract type `α` and a snapshot is the canvas value itself.  A
snapshot produced by `JSON.stringify` is never the empty string, so the
JS falsiness test `if (!snap)` is modelled as the `none` test of
`jsGetElem`. -/

structure CanvasState (α : Type) where
  canvas : Option α
  history : List α
  historyIndex : Int
  isRestoringHistory : Bool
deriving DecidableEq, Repr

/-- State of the composable before `setCanvas` runs: no canvas, empty
history, `_historyIndex = -1`, not restoring. -/
def initState : CanvasState α :=
  { canvas := none, history := [], historyIndex := -1, isRestoringHistory := false }

/-- Embedding of `_saveHistory`: bail out without a canvas or while
restoring; drop the redo branch when the cursor is behind the tail
(`_history = _history.slice(0, _historyIndex + 1)`); push the snapshot
of the current canvas; move the cursor to the new tail; if more than 50
entries remain, shift off the oldest and decrement the cursor. -/
def saveHistory (s : CanvasState α) : CanvasState α :=
  match s.canvas with
  | none => s
  | some c =>
    if s.isRestoringHistory then s
    else
      let h0 := if s.historyIndex < (s.history.length : Int) - 1
                then jsSlice s.history 0 (s.historyIndex + 1)
                else s.history
      let h1 := h0 ++ [c]
      let i1 : Int := (h1.length : Int) - 1
      if 50 < h1.length then
        { s with history := h1.drop 1, historyIndex := i1 - 1 }
      else
        { s with history := h1, historyIndex := i1 }

/-- Embedding of `undo`: no-op without a canvas or at `_historyIndex <= 0`;
otherwise decrement the cursor and load that snapshot into the canvas
(the `loadFromJSON` callback, which clears the restoring flag, is taken
as completed synchronously).  The `if (!snap) return` guard leaves the
restoring flag set when the lookup fails. -/
def undo (s : CanvasState α) : CanvasState α :=
  match s.canvas with
  | none => s
  | some _ =>
    if s.historyIndex ≤ 0 then s
    else
      let i := s.historyIndex - 1
      match jsGetElem s.history i with
      | none => { s with historyIndex := i, isRestoringHistory := true }
      | some snap =>
        { s with historyIndex := i, canvas := some snap, isRestoringHistory := false }

/-- Embedding of `redo`, the forward mirror of `undo`. -/
def redo (s : CanvasState α) : CanvasState α :=
  match s.canvas with
  | none => s
  | some _ =>
    if (s.history.length : Int) - 1 ≤ s.historyIndex then s
    else
      let i := s.historyIndex + 1
      match jsGetElem s.history i with
      | none => { s with historyIndex := i, isRestoringHistory := true }
      | some snap =>
        { s with historyIndex := i, canvas := some snap, isRestoringHistory := false }

/-- Embedding of `canUndo`. -/
def canUndo (s : CanvasState α) : Bool :=
  decide (0 < s.historyIndex)

/-- Embedding of `canRedo`. -/
def canRedo (s : CanvasState α) : Bool :=
  decide (s.historyIndex < (s.history.length : Int) - 1)

/-- Embedding of `setCanvas`: install the canvas and save the initial
state once (`_saveHistory(); // save initial state`).  The event
listeners it registers are modelled by `mutate`. -/
def setCanvas (c : α) (s : CanvasState α) : CanvasState α :=
  saveHistory { s with canvas := some c }

/-- One committed mutation: the canvas changes to `x` and the resulting
`object:added` / `object:modified` / `object:removed` event runs
`_saveHistory` (which itself ignores the call while restoring). -/
def mutate (x : α) (s : CanvasState α) : CanvasState α :=
  match s.canvas with
  | none => s
  | some _ => saveHistory { s with canvas := some x }

/-- A sequence of committed mutations, applied left to right. -/
def mutateList (xs : List α) (s : CanvasState α) : CanvasState α :=
  xs.foldl (fun s x => mutate x s) s

/-- Iterated `undo`. -/
def undoN (n : Nat) (s : CanvasState α) : CanvasState α :=
  undo^[n] s

/-- Iterated `redo`. -/
def redoN (n : Nat) (s : CanvasState α) : CanvasState α :=
  redo^[n] s

end WeChatEmo
namespace WeChatEmo

/-! ## Helper lemmas about the history operations -/

theorem undo_history_eq (s : CanvasState α) : (undo s).history = s.history := by
  obtain ⟨cv, h, i, r⟩ := s
  cases cv with
  | none => rfl
  | some c =>
    simp only [undo]
    split
    · rfl
    · cases jsGetElem h (i - 1) <;> rfl

theorem redo_history_eq (s : CanvasState α) : (redo s).history = s.history := by
  obtain ⟨cv, h, i, r⟩ := s
  cases cv with
  | none => rfl
  | some c =>
    simp only [redo]
    split
    · rfl
    · cases jsGetElem h (i + 1) <;> rfl

theorem canRedo_saveHistory (s : CanvasState α) (c : α)
    (hc : s.canvas = some c) (hr : s.isRestoringHistory = false) :
    canRedo (saveHistory s) = false := by
  obtain ⟨cv, h, i, r⟩ := s
  simp only at hc hr
  subst hc; subst hr
  have key : ∀ (h1 : List α) (j : Int), j = (h1.length : Int) - 1 →
      canRedo (⟨some c, h1, j, false⟩ : CanvasState α) = false := by
    intro h1 j hj
    simp [canRedo, hj]
  simp only [saveHistory]
  split_ifs <;>
    first
      | contradiction
      | exact key _ _ rfl
      | (apply key
         simp only [List.length_drop]
         omega)

end WeChatEmo
namespace WeChatEmo

/-- C9: `undo` and `redo` never modify the stored history entry
sequence — the snapshot list is identical before and after — and the
cursor moves by -1 for a permitted undo and +1 for a permitted redo,
and not at all at the respective boundary or with no canvas. -/
theorem undo_redo_frame_effect {α : Type} (s : CanvasState α) :
    (undo s).history = s.history ∧ (redo s).history = s.history ∧
    ((undo s).historyIndex =
      if s.canvas.isSome = true ∧ 0 < s.historyIndex
      then s.historyIndex - 1 else s.historyIndex) ∧
    ((redo s).historyIndex =
      if s.canvas.isSome = true ∧ s.historyIndex < (s.history.length : Int) - 1
      then s.historyIndex + 1 else s.historyIndex) := by
  refine ⟨undo_history_eq s, redo_history_eq s, ?_, ?_⟩
  · obtain ⟨cv, h, i, r⟩ := s
    cases cv with
    | none => simp [undo]
    | some c =>
      by_cases hi : i ≤ 0
      · simp [undo, hi, not_lt.mpr hi]
      · rcases hj : jsGetElem h (i - 1) with _ | snap <;>
          simp [undo, hi, hj, lt_of_not_le hi]
  · obtain ⟨cv, h, i, r⟩ := s
    cases cv with
    | none => simp [redo]
    | some c =>
      by_cases hi : (h.length : Int) - 1 ≤ i
      · simp [redo, hi, not_lt.mpr hi]
      · rcases hj : jsGetElem h (i + 1) with _ | snap <;>
          simp [redo, hi, hj, lt_of_not_le hi]

end WeChatEmo
namespace WeChatEmo

theorem jsSlice_from_zero (l : List α) (j : Int) (hj : 0 ≤ j) :
    jsSlice l 0 j = l.take j.toNat := by
  simp only [jsSlice, jsSliceIndex]
  rw [if_neg (by omega : ¬ j < 0), if_neg (by omega : ¬ (0:Int) < 0)]
  have h0 : (0:Int).toNat ⊓ l.length = 0 := by simp
  rw [h0, List.drop_zero, List.take_eq_take]
  omega

/-- C2: a history capture taken while the cursor is behind the tail
discards all entries after the cursor (the saved list becomes the first
`cursor + 1` old entries followed by the new snapshot), and in
particular after `undo(); mutate()` (the mutation event runs
`_saveHistory`), `canRedo()` is `false`. -/
theorem capture_prunes_redo {α : Type} (s : CanvasState α) (x c : α)
    (hc : s.canvas = some c) (hr : s.isRestoringHistory = false)
    (hnn : 0 ≤ s.historyIndex) :
    (s.historyIndex < (s.history.length : Int) - 1 → s.history.length ≤ 50 →
      (saveHistory s).history
        = s.history.take (s.historyIndex + 1).toNat ++ [c]) ∧
    (s.historyIndex < (s.history.length : Int) →
      canRedo (mutate x (undo s)) = false) := by
  constructor
  · intro hlt hcap
    obtain ⟨cv, h, i, r⟩ := s
    simp only at hc hr hnn hlt hcap
    subst hc; subst hr
    have hslice : jsSlice h 0 (i + 1) = h.take (i + 1).toNat :=
      jsSlice_from_zero h (i + 1) (by omega)
    dsimp only [saveHistory]
    rw [if_pos hlt, hslice]
    have hlen : ¬ 50 < (List.take (i + 1).toNat h ++ [c]).length := by
      simp only [List.length_append, List.length_take, List.length_cons,
        List.length_nil]
      omega
    rw [if_neg hlen]
    simp
  · intro hval
    have hu : (undo s).canvas = some ((undo s).canvas.getD c) ∧
        (undo s).isRestoringHistory = false := by
      obtain ⟨cv, h, i, r⟩ := s
      simp only at hc hr hnn hval
      subst hc; subst hr
      by_cases hi : i ≤ 0
      · simp [undo, hi]
      · have h1 : ¬ i - 1 < 0 := by omega
        have h2 : (i - 1).toNat < h.length := by omega
        rcases hj : jsGetElem h (i - 1) with _ | snap
        · exfalso
          simp only [jsGetElem, if_neg h1] at hj
          rw [List.get?_eq_get h2] at hj
          exact Option.noConfusion hj
        · simp [undo, hi, hj]
    rcases hu with ⟨hcan, hres⟩
    show canRedo (mutate x (undo s)) = false
    rw [mutate]
    rw [hcan]
    exact canRedo_saveHistory _ x (by simp) (by simp [hres])

end WeChatEmo
namespace WeChatEmo

theorem capture_prunes_redo_witness :
    (saveHistory (⟨some 5, [1, 5, 9], 1, false⟩ : CanvasState Nat)).history = [1, 5, 5] ∧
    canRedo (mutate 7 (undo (⟨some 5, [1, 5, 9], 1, false⟩ : CanvasState Nat))) = false := by
  constructor
  · have h := (capture_prunes_redo (⟨some 5, [1, 5, 9], 1, false⟩ : CanvasState Nat)
      7 5 rfl rfl (by decide)).1 (by decide) (by decide)
    rw [h]
    rfl
  · exact (capture_prunes_redo (⟨some 5, [1, 5, 9], 1, false⟩ : CanvasState Nat)
      7 5 rfl rfl (by decide)).2 (by decide)

theorem jsSlice_length_le (l : List α) (a b : Int) :
    (jsSlice l a b).length ≤ l.length := by
  simp only [jsSlice, List.length_drop, List.length_take]
  omega

theorem saveHistory_length_le (s : CanvasState α)
    (hle : s.history.length ≤ 50) : (saveHistory s).history.length ≤ 50 := by
  obtain ⟨cv, h, i, r⟩ := s
  simp only at hle
  cases cv with
  | none => simpa using hle
  | some c =>
    cases r with
    | true => simpa [saveHistory] using hle
    | false =>
      dsimp only [saveHistory]
      have hs := jsSlice_length_le h 0 (i + 1)
      split_ifs <;>
        simp only [List.length_drop, List.length_append, List.length_take,
          List.length_cons, List.length_nil] at * <;>
        omega

/-- C3: the history sequence never exceeds 50 entries (each operation
preserves the bound), and a capture taken at the tail of a full
50-entry history evicts the oldest entry while keeping the cursor at
49, so that every entry `k` steps behind the cursor agrees with what an
uncapped capture would have put `k` steps behind its cursor. -/
theorem history_capacity {α : Type} (s : CanvasState α) (c : α)
    (hc : s.canvas = some c) (hr : s.isRestoringHistory = false) :
    (s.history.length ≤ 50 →
      (saveHistory s).history.length ≤ 50 ∧ (undo s).history.length ≤ 50 ∧
      (redo s).history.length ≤ 50) ∧
    (s.history.length = 50 → s.historyIndex = (s.history.length : Int) - 1 →
      (saveHistory s).history = s.history.drop 1 ++ [c] ∧
      (saveHistory s).historyIndex = s.historyIndex ∧
      (saveHistory s).history.length = 50 ∧
      ∀ k : Nat, k < 50 →
        (saveHistory s).history.get? (49 - k) = (s.history ++ [c]).get? (50 - k)) := by
  constructor
  · intro hle
    exact ⟨saveHistory_length_le s hle,
      by rw [undo_history_eq]; exact hle,
      by rw [redo_history_eq]; exact hle⟩
  · intro hlen hidx
    obtain ⟨cv, h, i, r⟩ := s
    simp only at hc hr hlen hidx
    subst hc; subst hr
    have hevict : 50 < (h ++ [c]).length := by
      simp only [List.length_append, List.length_cons, List.length_nil]
      omega
    have hsave : saveHistory (⟨some c, h, i, false⟩ : CanvasState α)
        = ⟨some c, h.drop 1 ++ [c], i, false⟩ := by
      dsimp only [saveHistory]
      rw [if_neg (by rw [hlen] at hidx ⊢; omega : ¬ i < (h.length : Int) - 1)]
      rw [if_pos hevict]
      rw [List.drop_append_of_le_length (by omega)]
      have : ((h ++ [c]).length : Int) - 1 - 1 = i := by
        simp only [List.length_append, List.length_cons, List.length_nil]
        push_cast
        omega
      rw [this]
      simp
    rw [hsave]
    have hd : (h.drop 1).length = 49 := by simp [hlen]
    refine ⟨rfl, rfl, by simp [hd]; omega, ?_⟩
    intro k hk
    simp only [List.get?_eq_getElem?]
    by_cases hk0 : k = 0
    · subst hk0
      rw [List.getElem?_append_right (by omega : (h.drop 1).length ≤ 49 - 0)]
      rw [List.getElem?_append_right (by omega : h.length ≤ 50 - 0)]
      simp [hd, hlen]
    · rw [List.getElem?_append_left (by omega : 49 - k < (h.drop 1).length)]
      rw [List.getElem?_append_left (by omega : 50 - k < h.length)]
      rw [List.getElem?_drop]
      congr 1
      omega

theorem history_capacity_witness :
    ((⟨some 99, List.range 50, 49, false⟩ : CanvasState Nat).canvas = some 99) ∧
    ((⟨some 99, List.range 50, 49, false⟩ : CanvasState Nat).isRestoringHistory = false) ∧
    ((⟨some 99, List.range 50, 49, false⟩ : CanvasState Nat).history.length = 50) ∧
    (saveHistory (⟨some 99, List.range 50, 49, false⟩ : CanvasState Nat)).history
      = (List.range 50).drop 1 ++ [99] := by
  refine ⟨rfl, rfl, by decide, ?_⟩
  exact ((history_capacity (⟨some 99, List.range 50, 49, false⟩ : CanvasState Nat)
    99 rfl rfl).2 (by decide) (by decide)).1

end WeChatEmo
namespace WeChatEmo

theorem saveHistory_at_tail (h : List α) (x : α) (hle : h.length ≤ 49) :
    saveHistory (⟨some x, h, (h.length : Int) - 1, false⟩ : CanvasState α)
      = ⟨some x, h ++ [x], (h.length : Int), false⟩ := by
  dsimp only [saveHistory]
  rw [if_neg (by omega : ¬ (h.length : Int) - 1 < (h.length : Int) - 1)]
  rw [if_neg (by
    simp only [List.length_append, List.length_cons, List.length_nil]
    omega : ¬ 50 < (h ++ [x]).length)]
  have hi : ((h ++ [x]).length : Int) - 1 = (h.length : Int) := by
    simp only [List.length_append, List.length_cons, List.length_nil]
    push_cast
    omega
  rw [hi]
  simp

theorem mutate_at_tail (c x : α) (h : List α) (hle : h.length ≤ 49) :
    mutate x (⟨some c, h, (h.length : Int) - 1, false⟩ : CanvasState α)
      = ⟨some x, h ++ [x], (h.length : Int), false⟩ := by
  dsimp only [mutate]
  exact saveHistory_at_tail h x hle

theorem mutateList_at_tail (xs : List α) : ∀ (H : List α) (x : α),
    H.length + xs.length ≤ 50 →
    mutateList xs (⟨some x, H, (H.length : Int) - 1, false⟩ : CanvasState α)
      = ⟨some (xs.getLastD x), H ++ xs, ((H.length + xs.length : Nat) : Int) - 1, false⟩ := by
  induction xs with
  | nil =>
    intro H x hle
    simp [mutateList]
  | cons y ys ih =>
    intro H x hle
    have hstep : mutateList (y :: ys) (⟨some x, H, (H.length : Int) - 1, false⟩ : CanvasState α)
        = mutateList ys (mutate y ⟨some x, H, (H.length : Int) - 1, false⟩) := rfl
    rw [hstep, mutate_at_tail x y H (by simp at hle ⊢; omega)]
    have hlen' : ((H ++ [y]).length : Int) - 1 = (H.length : Int) := by
      simp only [List.length_append, List.length_cons, List.length_nil]
      push_cast
      omega
    rw [← hlen']
    rw [ih (H ++ [y]) y (by simp at hle ⊢; omega)]
    simp only [CanvasState.mk.injEq, List.getLastD_cons, List.append_assoc,
      List.singleton_append, List.length_append, List.length_cons, List.length_nil,
      true_and, and_true]
    push_cast
    omega

theorem undoN_spec : ∀ (k i : Nat) (h : List α) (c : α),
    k ≤ i → i < h.length → h.get? i = some c →
    undoN k (⟨some c, h, (i : Int), false⟩ : CanvasState α)
      = ⟨some (h.getD (i - k) c), h, ((i - k : Nat) : Int), false⟩ := by
  intro k
  induction k with
  | zero =>
    intro i h c hk hi hc
    have hd : h.getD (i - 0) c = c := by
      rw [List.getD_eq_getElem h c (by omega : i - 0 < h.length)]
      rw [List.get?_eq_getElem?] at hc
      rw [List.getElem?_eq_getElem hi] at hc
      simpa using hc
    show (⟨some c, h, (i : Int), false⟩ : CanvasState α) = _
    rw [hd, Nat.sub_zero]
  | succ k ih =>
    intro i h c hk hi hc
    have hstep : undoN (k + 1) (⟨some c, h, (i : Int), false⟩ : CanvasState α)
        = undoN k (undo ⟨some c, h, (i : Int), false⟩) := by
      simp only [undoN, Function.iterate_succ_apply]
    have hi1 : i - 1 < h.length := by omega
    have hjs : jsGetElem h ((i : Int) - 1) = some (h.getD (i - 1) c) := by
      simp only [jsGetElem]
      rw [if_neg (by omega : ¬ (i : Int) - 1 < 0)]
      rw [show ((i : Int) - 1).toNat = i - 1 by omega]
      rw [List.get?_eq_getElem?, List.getElem?_eq_getElem hi1]
      rw [List.getD_eq_getElem h c hi1]
    have hu : undo (⟨some c, h, (i : Int), false⟩ : CanvasState α)
        = ⟨some (h.getD (i - 1) c), h, ((i - 1 : Nat) : Int), false⟩ := by
      dsimp only [undo]
      rw [if_neg (by omega : ¬ (i : Int) ≤ 0), hjs]
      rw [show (i : Int) - 1 = ((i - 1 : Nat) : Int) by omega]
    have hc1 : h.get? (i - 1) = some (h.getD (i - 1) c) := by
      rw [List.get?_eq_getElem?, List.getElem?_eq_getElem hi1]
      rw [List.getD_eq_getElem h c hi1]
    rw [hstep, hu, ih (i - 1) h (h.getD (i - 1) c) (by omega) hi1 hc1]
    have h1 : i - 1 - k = i - (k + 1) := by omega
    rw [h1]
    rw [List.getD_eq_getElem h _ (by omega : i - (k + 1) < h.length)]
    rw [List.getD_eq_getElem h c (by omega : i - (k + 1) < h.length)]

theorem redoN_spec : ∀ (k i : Nat) (h : List α) (c : α),
    i + k < h.length → h.get? i = some c →
    redoN k (⟨some c, h, (i : Int), false⟩ : CanvasState α)
      = ⟨some (h.getD (i + k) c), h, ((i + k : Nat) : Int), false⟩ := by
  intro k
  induction k with
  | zero =>
    intro i h c hik hc
    have hd : h.getD (i + 0) c = c := by
      rw [List.getD_eq_getElem h c (by omega : i + 0 < h.length)]
      rw [List.get?_eq_getElem?] at hc
      rw [List.getElem?_eq_getElem (by omega : i < h.length)] at hc
      simpa using hc
    show (⟨some c, h, (i : Int), false⟩ : CanvasState α) = _
    rw [hd, Nat.add_zero]
  | succ k ih =>
    intro i h c hik hc
    have hstep : redoN (k + 1) (⟨some c, h, (i : Int), false⟩ : CanvasState α)
        = redoN k (redo ⟨some c, h, (i : Int), false⟩) := by
      simp only [redoN, Function.iterate_succ_apply]
    have hi1 : i + 1 < h.length := by omega
    have hjs : jsGetElem h ((i : Int) + 1) = some (h.getD (i + 1) c) := by
      simp only [jsGetElem]
      rw [if_neg (by omega : ¬ (i : Int) + 1 < 0)]
      rw [show ((i : Int) + 1).toNat = i + 1 by omega]
      rw [List.get?_eq_getElem?, List.getElem?_eq_getElem hi1]
      rw [List.getD_eq_getElem h c hi1]
    have hu : redo (⟨some c, h, (i : Int), false⟩ : CanvasState α)
        = ⟨some (h.getD (i + 1) c), h, ((i + 1 : Nat) : Int), false⟩ := by
      dsimp only [redo]
      rw [if_neg (by omega : ¬ (h.length : Int) - 1 ≤ (i : Int)), hjs]
      rw [show (i : Int) + 1 = ((i + 1 : Nat) : Int) by omega]
    have hc1 : h.get? (i + 1) = some (h.getD (i + 1) c) := by
      rw [List.get?_eq_getElem?, List.getElem?_eq_getElem hi1]
      rw [List.getD_eq_getElem h c hi1]
    rw [hstep, hu, ih (i + 1) h (h.getD (i + 1) c) (by omega) hc1]
    have h1 : i + 1 + k = i + (k + 1) := by omega
    rw [h1]
    rw [List.getD_eq_getElem h _ (by omega : i + (k + 1) < h.length)]
    rw [List.getD_eq_getElem h c (by omega : i + (k + 1) < h.length)]

theorem cons_get?_length (c0 : α) (xs : List α) :
    (c0 :: xs).get? xs.length = some (xs.getLastD c0) := by
  induction xs generalizing c0 with
  | nil => rfl
  | cons y ys ih =>
    rw [List.getLastD_cons]
    exact ih y

end WeChatEmo
namespace WeChatEmo

/-- C1 (amended with the capacity bound): starting from the initially
captured state, for any sequence of at most 49 committed mutations,
undoing once per mutation returns the canvas to the initial snapshot,
and redoing once per mutation replays forward to the final state. -/
theorem history_roundtrip {α : Type} (c0 : α) (xs : List α)
    (hN : xs.length ≤ 49) :
    (undoN xs.length (mutateList xs (setCanvas c0 initState))).canvas = some c0 ∧
    redoN xs.length (undoN xs.length (mutateList xs (setCanvas c0 initState)))
      = mutateList xs (setCanvas c0 initState) := by
  have hset : setCanvas c0 (initState : CanvasState α)
      = ⟨some c0, [c0], 0, false⟩ := by
    have h := saveHistory_at_tail ([] : List α) c0 (by simp)
    simp only [List.length_nil, List.nil_append] at h
    show saveHistory (⟨some c0, [], -1, false⟩ : CanvasState α) = _
    rw [show (-1 : Int) = ((0 : Nat) : Int) - 1 by omega]
    exact h
  have hmut : mutateList xs (⟨some c0, [c0], 0, false⟩ : CanvasState α)
      = ⟨some (xs.getLastD c0), c0 :: xs, (xs.length : Int), false⟩ := by
    have h := mutateList_at_tail xs [c0] c0
      (by simp only [List.length_cons, List.length_nil]; omega)
    simp only [List.length_cons, List.length_nil, List.singleton_append] at h
    rw [show ((0 + 1 : Nat) : Int) - 1 = (0 : Int) by norm_num] at h
    rw [h]
    simp only [CanvasState.mk.injEq, true_and, and_true]
    push_cast
    omega
  have hget : (c0 :: xs).get? xs.length = some (xs.getLastD c0) :=
    cons_get?_length c0 xs
  have hlt : xs.length < (c0 :: xs).length := by simp
  have hundo := undoN_spec xs.length xs.length (c0 :: xs) (xs.getLastD c0)
    (le_refl _) hlt hget
  rw [Nat.sub_self] at hundo
  have hd0 : (c0 :: xs).getD 0 (xs.getLastD c0) = c0 := rfl
  rw [hd0] at hundo
  have hget0 : (c0 :: xs).get? 0 = some c0 := rfl
  have hredo := redoN_spec xs.length 0 (c0 :: xs) c0 (by simp) hget0
  rw [Nat.zero_add] at hredo
  have hdN : (c0 :: xs).getD xs.length c0 = xs.getLastD c0 := by
    rw [List.getD_eq_getElem _ _ hlt]
    rw [List.get?_eq_getElem?, List.getElem?_eq_getElem hlt] at hget
    simpa using hget
  rw [hdN] at hredo
  rw [hset, hmut]
  rw [show (xs.length : Int) = ((xs.length : Nat) : Int) from rfl] at hundo ⊢
  rw [hundo]
  refine ⟨rfl, ?_⟩
  rw [show ((0 : Nat) : Int) = (0 : Int) from rfl] at hredo
  exact hredo

theorem history_roundtrip_witness :
    (([3, 1, 4] : List Nat).length ≤ 49) ∧
    (undoN 3 (mutateList [3, 1, 4] (setCanvas 0 initState))).canvas = some 0 ∧
    redoN 3 (undoN 3 (mutateList [3, 1, 4] (setCanvas 0 initState)))
      = mutateList [3, 1, 4] (setCanvas (0 : Nat) initState) :=
  ⟨by decide, history_roundtrip 0 [3, 1, 4] (by decide)⟩

set_option maxRecDepth 100000 in
/-- The unbounded round-trip law of the spec fails at N = 50: the
50-entry cap evicts the initial snapshot, so 50 undos no longer reach
it. -/
theorem history_roundtrip_cex :
    (undoN 50 (mutateList ((List.range 50).map (fun k => k + 1))
      (setCanvas 0 initState))).canvas ≠ some 0 := by
  decide

end WeChatEmo
namespace WeChatEmo

/-! ## Frame timeline (`src/composables/useFrames.ts`)

A `Frame` mirrors the exported interface.  Frame ids are produced in
the source from `Date.now()` and `Math.random()`; the fresh id is
therefore taken as an explicit argument of the operations that mint
one.  The reactive `frames` ref is modelled by passing the frame list
in and out. -/

structure Frame where
  id : String
  dataUrl : String
  fabricJson : String
  delay : Nat
deriving DecidableEq, Repr

/-- Embedding of `addFrame` (default `delay = 100` is supplied by the
callers): append the new frame and return it. -/
def addFrame (frames : List Frame) (newId dataUrl fabricJson : String)
    (delay : Nat) : List Frame × Frame :=
  let frame : Frame := { id := newId, dataUrl := dataUrl,
                         fabricJson := fabricJson, delay := delay }
  (frames ++ [frame], frame)

/-- Embedding of `deleteFrame`. -/
def deleteFrame (frames : List Frame) (id : String) : List Frame :=
  frames.filter (fun f => f.id != id)

/-- Embedding of `duplicateFrame`: find the index of `id` (`findIndex`
returning `-1` is the `none` case), copy the frame with a fresh id and
splice the copy in immediately after the original. -/
def duplicateFrame (frames : List Frame) (id newId : String) : List Frame :=
  match frames.findIdx? (fun f => f.id == id) with
  | none => frames
  | some idx =>
    match frames.get? idx with
    | none => frames
    | some original =>
      frames.take (idx + 1)
        ++ ({ original with id := newId } : Frame) :: frames.drop (idx + 1)

/-- Embedding of `reorderFrames`: no-op when the indices are equal,
otherwise `splice(fromIndex, 1)` the frame out and `splice(toIndex, 0,
item)` it back in.  When `fromIndex` is out of bounds the source
splices the JS value `undefined` into the array; a `List Frame` cannot
hold that value, so the `none` branch keeps only the removal (the
claims about this function quantify over in-bounds indices only). -/
def reorderFrames (frames : List Frame) (fromIndex toIndex : Nat) : List Frame :=
  if fromIndex = toIndex then frames
  else
    match frames.get? fromIndex with
    | none => frames.take fromIndex ++ frames.drop (fromIndex + 1)
    | some item =>
      let list := frames.take fromIndex ++ frames.drop (fromIndex + 1)
      list.take toIndex ++ item :: list.drop toIndex

/-- Embedding of `updateDelay`: `find` locates the first frame with the
given id and its `delay` field is mutated in place. -/
def updateDelay (frames : List Frame) (id : String) (delay : Nat) : List Frame :=
  match frames with
  | [] => []
  | f :: rest =>
    if f.id == id then { f with delay := delay } :: rest
    else f :: updateDelay rest id delay

/-- Embedding of `captureFrame` (app component): reject silently once
the timeline holds 10 frames, otherwise capture the canvas into a new
frame via `addFrame`.  The second component is the caller-visible
return value: the source returns `undefined` on both paths (the
`Frame` returned by `addFrame` is discarded), modelled as `none`. -/
def captureFrame (frames : List Frame) (newId dataUrl json : String) :
    List Frame × Option Frame :=
  if 10 ≤ frames.length then (frames, none)
  else ((addFrame frames newId dataUrl json 100).1, none)

end WeChatEmo
namespace WeChatEmo

/-- C4 counterexample: with the timeline already at 10 frames,
`captureFrame` leaves the timeline unchanged, and its caller-visible
return value is exactly the one a successful capture produces
(`undefined` both times) — no rejection signal reaches the caller. -/
theorem captureFrame_cap_cex :
    (captureFrame (List.replicate 10 ⟨"a", "d", "j", 100⟩) "new" "du" "fj").1
      = List.replicate 10 ⟨"a", "d", "j", 100⟩ ∧
    (captureFrame (List.replicate 10 ⟨"a", "d", "j", 100⟩) "new" "du" "fj").2
      = (captureFrame [] "new" "du" "fj").2 := by
  decide

/-- C4 (amended): a frame capture attempted on a 10-frame timeline is a
silent no-op — the timeline stays at exactly 10 frames and no rejection
signal is returned to the caller. -/
theorem captureFrame_at_cap (frames : List Frame) (newId dataUrl json : String)
    (h10 : frames.length = 10) :
    (captureFrame frames newId dataUrl json).1 = frames ∧
    (captureFrame frames newId dataUrl json).1.length = 10 ∧
    (captureFrame frames newId dataUrl json).2 = none := by
  simp [captureFrame, h10]

theorem captureFrame_at_cap_witness :
    (captureFrame (List.replicate 10 ⟨"a", "d", "j", 100⟩) "n" "d2" "j2").1
      = List.replicate 10 ⟨"a", "d", "j", 100⟩ ∧
    (captureFrame (List.replicate 10 ⟨"a", "d", "j", 100⟩) "n" "d2" "j2").1.length = 10 ∧
    (captureFrame (List.replicate 10 ⟨"a", "d", "j", 100⟩) "n" "d2" "j2").2 = none :=
  captureFrame_at_cap (List.replicate 10 ⟨"a", "d", "j", 100⟩) "n" "d2" "j2" (by decide)

/-- C8: for an in-bounds source index, `reorderFrames` permutes the
frame list (the multiset of frame identities is preserved), it realizes
the expected permutation on `[a, b, c, d]` with `reorder(0, 2)`, and it
is a no-op when the two indices are equal. -/
theorem reorderFrames_spec :
    (∀ (frames : List Frame) (fromIndex toIndex : Nat),
      fromIndex < frames.length →
      (reorderFrames frames fromIndex toIndex).Perm frames) ∧
    (∀ a b c d : Frame, reorderFrames [a, b, c, d] 0 2 = [b, c, a, d]) ∧
    (∀ (frames : List Frame) (i : Nat), reorderFrames frames i i = frames) := by
  refine ⟨?_, ?_, ?_⟩
  · intro frames f t hf
    by_cases hft : f = t
    · simp [reorderFrames, hft]
    · have hget : frames.get? f = some frames[f] := by
        rw [List.get?_eq_getElem?, List.getElem?_eq_getElem hf]
      simp only [reorderFrames, if_neg hft, hget]
      have p1 : ((frames.take f ++ frames.drop (f + 1)).take t
            ++ frames[f] :: (frames.take f ++ frames.drop (f + 1)).drop t).Perm
          (frames[f] :: (frames.take f ++ frames.drop (f + 1))) := by
        have h := @List.perm_middle Frame frames[f]
          ((frames.take f ++ frames.drop (f + 1)).take t)
          ((frames.take f ++ frames.drop (f + 1)).drop t)
        rwa [List.take_append_drop] at h
      have p2 : (frames[f] :: (frames.take f ++ frames.drop (f + 1))).Perm frames := by
        have h := (@List.perm_middle Frame frames[f]
          (frames.take f) (frames.drop (f + 1))).symm
        rwa [show frames.take f ++ frames[f] :: frames.drop (f + 1) = frames by
          rw [List.getElem_cons_drop frames f hf, List.take_append_drop]] at h
      exact p1.trans p2
  · intro a b c d
    rfl
  · intro frames i
    simp [reorderFrames]

theorem reorderFrames_spec_witness :
    (reorderFrames [⟨"a", "", "", 1⟩, ⟨"b", "", "", 2⟩, ⟨"c", "", "", 3⟩] 0 2).Perm
      [⟨"a", "", "", 1⟩, ⟨"b", "", "", 2⟩, ⟨"c", "", "", 3⟩] :=
  reorderFrames_spec.1 [⟨"a", "", "", 1⟩, ⟨"b", "", "", 2⟩, ⟨"c", "", "", 3⟩] 0 2
    (by decide)

/-- C10: `deleteFrame`, `duplicateFrame` and `updateDelay` are no-ops
when no frame in the timeline carries the given id. -/
theorem unknown_id_noop (frames : List Frame) (id newId : String) (delay : Nat)
    (h : ∀ f ∈ frames, f.id ≠ id) :
    deleteFrame frames id = frames ∧
    duplicateFrame frames id newId = frames ∧
    updateDelay frames id delay = frames := by
  refine ⟨?_, ?_, ?_⟩
  · rw [deleteFrame, List.filter_eq_self]
    intro f hf
    simpa using h f hf
  · have hfind : ∀ (l : List Frame), (∀ f ∈ l, f.id ≠ id) → ∀ i,
        List.findIdx? (fun f => f.id == id) l i = none := by
      intro l
      induction l with
      | nil => intro _ i; rfl
      | cons f rest ih =>
        intro hl i
        rw [List.findIdx?_cons, if_neg (by simpa using hl f (by simp))]
        exact ih (fun g hg => hl g (by simp [hg])) (i + 1)
    rw [duplicateFrame]
    rw [hfind frames h 0]
  · induction frames with
    | nil => rfl
    | cons f rest ih =>
      simp only [updateDelay]
      rw [if_neg (by simpa using h f (by simp))]
      rw [ih (fun g hg => h g (by simp [hg]))]

theorem unknown_id_noop_witness :
    deleteFrame [⟨"a", "x", "y", 100⟩] "b" = [⟨"a", "x", "y", 100⟩] ∧
    duplicateFrame [⟨"a", "x", "y", 100⟩] "b" "c" = [⟨"a", "x", "y", 100⟩] ∧
    updateDelay [⟨"a", "x", "y", 100⟩] "b" 55 = [⟨"a", "x", "y", 100⟩] :=
  unknown_id_noop [⟨"a", "x", "y", 100⟩] "b" "c" 55 (by decide)

end WeChatEmo
namespace WeChatEmo

/-! ## Compliance checker (`src/utils/complianceChecker.ts`) -/

/-- Rendering of `(ms / 1000).toFixed(1)` for a nonnegative integral
millisecond count: seconds with one decimal digit, rounding half up.
(JS `toFixed` rounds to the nearest representation; the inputs the
source feeds it are integral milliseconds, so this agrees.) -/
def secondsToFixed1 (ms : Nat) : String :=
  let tenths := (ms + 50) / 100
  toString (tenths / 10) ++ "." ++ toString (tenths % 10)

/-- Rendering of `(bytes / 1024).toFixed(0)`: KiB rounded to the
nearest integer (half up). -/
def kbToFixed0 (bytes : Nat) : String :=
  toString ((bytes + 512) / 1024)

structure ComplianceResult where
  valid : Bool
  warnings : List String
deriving DecidableEq, Repr

/-- Embedding of `checkCompliance`: three independently evaluated
rules; `estimatedFileSizeBytes` is an optional parameter and JS
truthiness makes a present `0` skip the size rule.  `valid` is
`warnings.length === 0`. -/
def checkCompliance (frames : List Frame) (estimatedFileSizeBytes : Option Nat) :
    ComplianceResult :=
  let w1 : List String :=
    if 10 < frames.length then
      ["Too many frames (" ++ toString frames.length
        ++ "/10). WeChat allows max 10 frames."]
    else []
  let totalDurationMs := frames.foldl (fun sum f => sum + f.delay) 0
  let w2 : List String :=
    if 30000 < totalDurationMs then
      ["Total animation duration " ++ secondsToFixed1 totalDurationMs
        ++ "s exceeds 30s limit."]
    else []
  let w3 : List String :=
    match estimatedFileSizeBytes with
    | none => []
    | some b =>
      if b ≠ 0 ∧ 500 * 1024 < b then
        ["Estimated file size " ++ kbToFixed0 b
          ++ "KB exceeds WeChat\x27s 500KB limit."]
      else []
  let warnings := w1 ++ w2 ++ w3
  { valid := warnings.length == 0, warnings := warnings }

/-- C6: `valid` is true iff none of the three warnings fired (frame
count over 10, total delay over 30000 ms, known size over 512000
bytes), and the four concrete scenarios of the spec behave as stated:
12 frames of 100 ms warn about the frame count, 5 frames of 7000 ms
warn about a 35.0s duration, a 600 KiB artifact warns about its size,
and 3 frames of 50 ms with a small artifact are valid with no
warnings. -/
theorem checkCompliance_spec :
    (∀ (frames : List Frame) (sz : Option Nat),
      (checkCompliance frames sz).valid = true ↔
        (frames.length ≤ 10 ∧
         frames.foldl (fun sum f => sum + f.delay) 0 ≤ 30000 ∧
         ∀ b, sz = some b → b = 0 ∨ b ≤ 500 * 1024)) ∧
    ("Too many frames (12/10). WeChat allows max 10 frames."
      ∈ (checkCompliance (List.replicate 12 ⟨"f", "d", "j", 100⟩) none).warnings) ∧
    ("Total animation duration 35.0s exceeds 30s limit."
      ∈ (checkCompliance (List.replicate 5 ⟨"f", "d", "j", 7000⟩) none).warnings) ∧
    ("Estimated file size 600KB exceeds WeChat\x27s 500KB limit."
      ∈ (checkCompliance [⟨"f", "d", "j", 100⟩] (some 614400)).warnings) ∧
    ((checkCompliance (List.replicate 3 ⟨"f", "d", "j", 50⟩) (some 10240)).valid = true ∧
     (checkCompliance (List.replicate 3 ⟨"f", "d", "j", 50⟩) (some 10240)).warnings = []) := by
  refine ⟨?_, by decide, by decide, by decide, by decide, by decide⟩
  intro frames sz
  rcases sz with _ | b
  · simp only [checkCompliance]
    split_ifs <;> simp_all
  · simp only [checkCompliance]
    split_ifs <;> simp_all
    omega

theorem checkCompliance_spec_witness :
    (checkCompliance [] none).valid = true ↔
      (([] : List Frame).length ≤ 10 ∧
       ([] : List Frame).foldl (fun sum f => sum + f.delay) 0 ≤ 30000 ∧
       ∀ b, (none : Option Nat) = some b → b = 0 ∨ b ≤ 500 * 1024) :=
  checkCompliance_spec.1 [] none

/-! ## Export pipeline (`exportEmoji` in the app component) -/

inductive ExportArtifact where
  | png (dataUrl : String)
  | gif (frames : List (String × Nat))
deriving DecidableEq, Repr

/-- Observable outcome of one `exportEmoji` run: whether the
Compliance Checker ran, whether a `GifGenerator` was constructed and
driven (the encoder), the compliance warnings recorded before
encoding, and the artifact handed to the download link. -/
structure ExportRun where
  complianceRan : Bool
  encoderInvoked : Bool
  complianceWarnings : List String
  artifact : ExportArtifact
deriving DecidableEq, Repr

/-- Embedding of `exportEmoji`: an empty timeline takes the early
`return` with a still PNG of the live canvas (`livePng` models
`exportPng()`); otherwise `checkCompliance(frames)` runs (no size
argument), its warnings are recorded, and every frame is fed to the
GIF encoder in timeline order with its delay.  The post-render size
warning and the download/object-URL mechanics are outside the model. -/
def exportEmoji (frames : List Frame) (livePng : String) : ExportRun :=
  if frames.length = 0 then
    { complianceRan := false, encoderInvoked := false,
      complianceWarnings := [], artifact := .png livePng }
  else
    let compliance := checkCompliance frames none
    { complianceRan := true, encoderInvoked := true,
      complianceWarnings := compliance.warnings,
      artifact := .gif (frames.map (fun f => (f.dataUrl, f.delay))) }

/-- C5: exporting an empty timeline produces a single still image of
the live scene, never invokes the GIF encoder and never runs the
Compliance Checker. -/
theorem export_empty_timeline (frames : List Frame) (livePng : String)
    (h : frames.length = 0) :
    (exportEmoji frames livePng).artifact = .png livePng ∧
    (exportEmoji frames livePng).complianceRan = false ∧
    (exportEmoji frames livePng).encoderInvoked = false := by
  simp [exportEmoji, h]

theorem export_empty_timeline_witness :
    (exportEmoji [] "livePng").artifact = .png "livePng" ∧
    (exportEmoji [] "livePng").complianceRan = false ∧
    (exportEmoji [] "livePng").encoderInvoked = false :=
  export_empty_timeline [] "livePng" rfl

end WeChatEmo
namespace WeChatEmo

/-! ## Tool state machine (`src/composables/useCanvas.ts`)

The shape-drawing flow is embedded over a concrete scene type: the
fabric canvas object list restricted to the shape objects the
`rect`/`circle` handlers manipulate (for an `Ellipse`, the `width` and
`height` fields hold `rx` and `ry`).  `canvas.isDrawingMode`,
`selection` and `defaultCursor` are renderer configuration with no
bearing on the scene or the history and are not modelled; the `text`
handler creates its object in a single `mouse:down` step and is not
needed for the multi-step-gesture claims.  The handlers dispatch on
`activeTool`, which is faithful because `_applyTool` always calls
`_removeShapeListeners` before installing the handlers for the tool it
receives. -/

inductive ToolType where
  | select | pencil | text | rect | circle | eraser
deriving DecidableEq, Repr

inductive ShapeKind where
  | rectKind | ellipseKind
deriving DecidableEq, Repr

structure SceneObj where
  id : Nat
  kind : ShapeKind
  left : Int
  top : Int
  width : Int
  height : Int
  selectable : Bool
deriving DecidableEq, Repr

abbrev Scene := List SceneObj

/-- The composable's canvas/history state plus the tool and
shape-gesture variables (`activeTool`, `_isDrawingShape`,
`_activeShape` — tracked by object id — `_shapeStartX`,
`_shapeStartY`).  Fabric objects carry no id in the source; the model
ids only track object identity across the gesture. -/
structure EditorState where
  cs : CanvasState Scene
  activeTool : ToolType
  isDrawingShape : Bool
  activeShape : Option Nat
  shapeStartX : Int
  shapeStartY : Int
deriving DecidableEq, Repr

/-- Semantics of `canvas.add(obj)` together with the registered
`object:added` listener, which runs `_saveHistory` unless restoring
(`_saveHistory` performs the same check itself). -/
def canvasAdd (obj : SceneObj) (e : EditorState) : EditorState :=
  match e.cs.canvas with
  | none => e
  | some scene =>
    { e with cs := saveHistory { e.cs with canvas := some (scene ++ [obj]) } }

/-- Embedding of `_applyTool`: after `_removeShapeListeners` (implicit
in the `activeTool` dispatch of the handlers below), the `select`
branch makes every object selectable and every other branch makes
every object unselectable.  Setting `selectable` fires no object
event, so no history capture happens here. -/
def applyTool (tool : ToolType) (e : EditorState) : EditorState :=
  match e.cs.canvas with
  | none => e
  | some scene =>
    let scene' :=
      match tool with
      | .select => scene.map (fun o => { o with selectable := true })
      | _ => scene.map (fun o => { o with selectable := false })
    { e with cs := { e.cs with canvas := some scene' } }

/-- Embedding of `setTool`: record the active tool, then `_applyTool`. -/
def setTool (tool : ToolType) (e : EditorState) : EditorState :=
  applyTool tool { e with activeTool := tool }

/-- Embedding of the `mouse:down` handler installed for the `rect` and
`circle` tools: ignore the event while a gesture is in progress,
otherwise start the gesture, create the zero-size shape at the pointer
and add it to the canvas (which captures history via `object:added`).
The fresh fabric object is given the explicit id `nextId`. -/
def shapeMouseDown (nextId : Nat) (x y : Int) (e : EditorState) : EditorState :=
  match e.activeTool with
  | .rect | .circle =>
    match e.cs.canvas with
    | none => e
    | some _ =>
      if e.isDrawingShape then e
      else
        let obj : SceneObj :=
          { id := nextId,
            kind := if e.activeTool = .rect then .rectKind else .ellipseKind,
            left := x, top := y, width := 0, height := 0, selectable := false }
        canvasAdd obj
          { e with isDrawingShape := true, shapeStartX := x, shapeStartY := y,
                   activeShape := some nextId }
  | _ => e

/-- Embedding of the shape `mouse:move` handler: resize the active
shape from the anchor (`width = |dx|`, `height = |dy|`, `left/top =
min(anchor, pointer)`; an ellipse gets the half-extents).  `set` fires
no object event, so the history is untouched. -/
def shapeMouseMove (x y : Int) (e : EditorState) : EditorState :=
  match e.activeTool with
  | .rect | .circle =>
    match e.cs.canvas with
    | none => e
    | some scene =>
      if e.isDrawingShape = false then e
      else
        match e.activeShape with
        | none => e
        | some sid =>
          let w := |x - e.shapeStartX|
          let h := |y - e.shapeStartY|
          let l := min x e.shapeStartX
          let t := min y e.shapeStartY
          let scene' := scene.map (fun o =>
            if o.id = sid then
              match o.kind with
              | .rectKind => { o with left := l, top := t, width := w, height := h }
              | .ellipseKind =>
                { o with left := l, top := t, width := w / 2, height := h / 2 }
            else o)
          { e with cs := { e.cs with canvas := some scene' } }
  | _ => e

/-- Embedding of the shape `mouse:up` handler: end the gesture, make
the finished shape selectable, clear `_activeShape` and capture
history. -/
def shapeMouseUp (e : EditorState) : EditorState :=
  match e.activeTool with
  | .rect | .circle =>
    match e.cs.canvas with
    | none => e
    | some scene =>
      if e.isDrawingShape = false then e
      else
        let e1 := { e with isDrawingShape := false }
        match e1.activeShape with
        | none => e1
        | some sid =>
          let scene' := scene.map (fun o =>
            if o.id = sid then { o with selectable := true } else o)
          { e1 with
            cs := saveHistory { e1.cs with canvas := some scene' },
            activeShape := none }
  | _ => e

/-- The editor right after mount: `setCanvas` ran on a blank canvas
(capturing the initial history entry) and the initial tool is
`select`. -/
def initialEditor : EditorState :=
  { cs := setCanvas ([] : Scene) initState,
    activeTool := .select, isDrawingShape := false, activeShape := none,
    shapeStartX := 0, shapeStartY := 0 }

/-- C7 failing run: select the rect tool, press at (10,10), drag to
(30,25), then switch to the select tool mid-gesture.  Contrary to the
claim, the partially drawn shape (id 7) is still part of the scene
after the transition, a history entry containing it was already
captured (by `object:added` at mouse-down), and `_isDrawingShape` is
left `true`, wedging the shape tool. -/
theorem tool_switch_keeps_unfinished_shape :
    ((setTool .select (shapeMouseMove 30 25 (shapeMouseDown 7 10 10
        (setTool .rect initialEditor)))).cs.canvas.getD []).any
        (fun o => o.id == 7) = true ∧
    (setTool .select (shapeMouseMove 30 25 (shapeMouseDown 7 10 10
        (setTool .rect initialEditor)))).cs.history.length = 2 ∧
    ((setTool .select (shapeMouseMove 30 25 (shapeMouseDown 7 10 10
        (setTool .rect initialEditor)))).cs.history.getD 1 []).any
        (fun o => o.id == 7) = true ∧
    (setTool .select (shapeMouseMove 30 25 (shapeMouseDown 7 10 10
        (setTool .rect initialEditor)))).isDrawingShape = true := by
  decide

end WeChatEmo
